import Mathlib

/-!
# Verification of the dump-to-filesystem reconstruction pipeline

A shallow embedding, in Lean 4, of the core functions of the Project-builder
repository: the path sanitizer (`structure_builder/sanitize.py`), the
deterministic heading/fence extractors (`structure_builder/audit.py`,
`tools/project_parser.py`, `tools/parsing_utils.py`), the reconciliation
writers (`structure_builder/core.py`, `tools/codefill.py`), the post-build
audit (`structure_builder/audit.py`), the completion-service retry loops
(`tools/llm_client.py`, `structure_builder/groq_openai.py`), the structure
inferrer (`structure_builder/llm_normalizer.py`) and the run coordinator
(`tools/prestart_codefill.py`).

Strings are modelled as `List Char` (Python `str` is a sequence of code
points, which `List Char` matches); regular expressions from the source are
hand-compiled into executable matchers with the same semantics on the
pattern they implement.  External effects (the HTTP transport, the
filesystem) are modelled by explicit parameters and association lists.
-/

namespace ProjectBuilder

/-! ## Python string primitives -/

/-- Python `str.isspace` characters relevant to `str.strip()` (code points
32, 9, 10, 13, 11, 12: space, tab, LF, CR, VT, FF; ASCII range — the source
only ever strips ASCII whitespace produced by its own regexes). -/
def isPySpace (c : Char) : Bool :=
  let n := c.toNat
  n == 32 || n == 9 || n == 10 || n == 13 || n == 11 || n == 12

/-- `str.lstrip()`. -/
def pyLstrip (l : List Char) : List Char := l.dropWhile isPySpace

/-- `str.rstrip()`. -/
def pyRstrip (l : List Char) : List Char := (l.reverse.dropWhile isPySpace).reverse

/-- `str.strip()`. -/
def pyStrip (l : List Char) : List Char := pyRstrip (pyLstrip l)

/-- `s.replace("\\", "/")`. -/
def replaceBackslash (l : List Char) : List Char :=
  l.map (fun c => if c == '\\' then '/' else c)

/-- `s.split("/")` with Python semantics: empty pieces are kept and the
result is always non-empty. -/
def splitSlash : List Char → List (List Char)
  | [] => [[]]
  | c :: rest =>
    if c = '/' then [] :: splitSlash rest
    else
      match splitSlash rest with
      | [] => [[c]]
      | h :: t => (c :: h) :: t

/-- `"/".join(parts)`. -/
def joinSlash : List (List Char) → List Char
  | [] => []
  | [a] => a
  | a :: rest => a ++ '/' :: joinSlash rest

/-- `re.sub(r"^\./+", "", s)`: one leading dot followed by one or more
slashes is removed (the `/+` is greedy). -/
def stripDotSlash (l : List Char) : List Char :=
  match l with
  | a :: b :: rest =>
    if a = '.' ∧ b = '/' then rest.dropWhile (· == '/')
    else a :: b :: rest
  | _ => l

/-- `re.sub(r"/+", "/", s)`: collapse runs of slashes.  The boolean flag
records whether the previous character was part of a slash run. -/
def collapseSlash : List Char → Bool → List Char
  | [], _ => []
  | c :: r, inRun =>
    if c = '/' then
      if inRun then collapseSlash r true
      else '/' :: collapseSlash r true
    else c :: collapseSlash r false

/-! ## `structure_builder/sanitize.py` -/

/-- The character class of `_SAFE_COMP_RE = ^[A-Za-z0-9._\-]+$` (code
points 46, 95, 45 are `.`, `_`, `-`). -/
def isSafeChar (c : Char) : Bool :=
  let n := c.toNat
  (65 ≤ n && n ≤ 90) || (97 ≤ n && n ≤ 122) || (48 ≤ n && n ≤ 57) ||
  n == 46 || n == 95 || n == 45

/-- `_SAFE_COMP_RE.match(s)` viewed as a whole-string test (the pattern is
anchored on both sides and its input is already stripped). -/
def matchesSafe (l : List Char) : Bool :=
  !l.isEmpty && l.all isSafeChar

/-- `s.strip("/")`. -/
def stripSlashEnds (l : List Char) : List Char :=
  ((l.dropWhile (· == '/')).reverse.dropWhile (· == '/')).reverse

/-- `sanitize.clean_component`: strip whitespace, turn backslashes into
slashes, strip surrounding slashes, keep only the last slash-separated
segment, and require the safe character class. -/
def clean_component (name : List Char) : Option (List Char) :=
  if name.isEmpty then none
  else
    let s := stripSlashEnds (replaceBackslash (pyStrip name))
    if s.isEmpty then none
    else
      let s := (splitSlash s).getLastD []
      if matchesSafe s then some s else none

/-- Is a split piece dropped by the comprehension
`[seg for seg in s.split("/") if seg not in ("", ".", "..")]`? -/
def isDroppedSeg (seg : List Char) : Bool :=
  seg.isEmpty || seg == ['.'] || seg == ['.', '.']

/-- The split-and-filter step of `sanitize_relpath`:
`[seg for seg in s.split("/") if seg not in ("", ".", "..")]`. -/
def sanitizeParts (s : List Char) : List (List Char) :=
  (splitSlash s).filter (fun seg => !isDroppedSeg seg)

/-- The `for seg in parts` loop of `sanitize_relpath`: clean every part in
order, returning `None` at the first part whose cleaning fails. -/
def mapClean : List (List Char) → Option (List (List Char))
  | [] => some []
  | x :: xs =>
    match clean_component x, mapClean xs with
    | some c, some cs => some (c :: cs)
    | _, _ => none

/-- The per-segment cleaning loop of `sanitize_relpath`: return `None` if
no parts remain, clean every part (failing the whole path when any part
fails), and join with `/`. -/
def sanitizeFromParts (parts : List (List Char)) : Option (List Char) :=
  if parts.isEmpty then none
  else
    match mapClean parts with
    | none => none
    | some comps => some (joinSlash comps)

/-- `sanitize.sanitize_relpath`: normalise separators, strip whitespace and
a leading `./`, collapse slashes, drop empty, `.` and `..` pieces, then
clean every remaining piece. -/
def sanitize_relpath (p : List Char) : Option (List Char) :=
  if p.isEmpty then none
  else
    sanitizeFromParts
      (sanitizeParts (collapseSlash (stripDotSlash (pyStrip (replaceBackslash p))) false))

/-- String-level wrapper for stating theorems on literals. -/
def sanitizeRelpathStr (s : String) : Option String :=
  (sanitize_relpath s.data).map (fun l => String.mk l)

/-! ## Structural lemmas about the sanitizer primitives -/

theorem dropWhile_eq_self {p : Char → Bool} (l : List Char)
    (h : ∀ c ∈ l, p c = false) : l.dropWhile p = l := by
  cases l with
  | nil => rfl
  | cons c r => simp [List.dropWhile, h c (by simp)]

theorem dropWhile_append_full {p : Char → Bool} (a b : List Char) :
    (a ++ b).dropWhile p =
      if (a.dropWhile p).isEmpty then b.dropWhile p else a.dropWhile p ++ b := by
  induction a with
  | nil => simp
  | cons c a ih =>
    by_cases h : p c
    · simpa [List.dropWhile, h] using ih
    · simp [List.dropWhile, h]

theorem pyRstrip_append (pre m : List Char) :
    pyRstrip (pre ++ m) =
      if (m.reverse.dropWhile isPySpace).isEmpty then pyRstrip pre
      else pre ++ pyRstrip m := by
  unfold pyRstrip
  rw [List.reverse_append, dropWhile_append_full]
  by_cases h : (m.reverse.dropWhile isPySpace).isEmpty <;>
    simp [h, List.reverse_append]

theorem pyStrip_eq_self (l : List Char) (h : ∀ c ∈ l, isPySpace c = false) :
    pyStrip l = l := by
  unfold pyStrip pyLstrip pyRstrip
  rw [dropWhile_eq_self _ h,
    dropWhile_eq_self _ (fun c hc => h c (List.mem_reverse.mp hc)),
    List.reverse_reverse]

theorem replaceBackslash_eq_self (l : List Char) (h : ∀ c ∈ l, c ≠ '\\') :
    replaceBackslash l = l := by
  induction l with
  | nil => rfl
  | cons c r ih =>
    simp only [replaceBackslash, List.map_cons]
    rw [if_neg (by simpa using h c (by simp))]
    have := ih (fun x hx => h x (by simp [hx]))
    simpa [replaceBackslash] using this

theorem stripDotSlash_eq_self (l : List Char) (h : ∀ t, l ≠ '.' :: '/' :: t) :
    stripDotSlash l = l := by
  match l with
  | [] => rfl
  | [a] => rfl
  | a :: b :: rest =>
    have he : stripDotSlash (a :: b :: rest) =
        if a = '.' ∧ b = '/' then rest.dropWhile (· == '/') else a :: b :: rest := rfl
    rw [he, if_neg]
    rintro ⟨rfl, rfl⟩
    exact h rest rfl

theorem collapseSlash_true_eq (l : List Char) :
    collapseSlash l true = collapseSlash (l.dropWhile (· == '/')) false := by
  induction l with
  | nil => rfl
  | cons c r ih =>
    by_cases h : c = '/'
    · subst h
      simpa [collapseSlash, List.dropWhile] using ih
    · have hb : (c == '/') = false := by simp [h]
      simp [collapseSlash, h, List.dropWhile, hb]

theorem collapseSlash_append_noslash (a X : List Char) (h : ∀ c ∈ a, c ≠ '/') :
    collapseSlash (a ++ X) false = a ++ collapseSlash X false := by
  induction a with
  | nil => rfl
  | cons c a ih =>
    have hc : c ≠ '/' := h c (by simp)
    simp only [List.cons_append, collapseSlash, if_neg hc]
    show c :: collapseSlash (a ++ X) false = c :: (a ++ collapseSlash X false)
    rw [ih (fun x hx => h x (by simp [hx]))]

theorem splitSlash_ne_nil (l : List Char) : splitSlash l ≠ [] := by
  induction l with
  | nil => simp [splitSlash]
  | cons c r ih =>
    by_cases h : c = '/'
    · simp [splitSlash, h]
    · simp only [splitSlash, if_neg h]
      cases hs : splitSlash r <;> simp

theorem splitSlash_noslash (l : List Char) (h : ∀ c ∈ l, c ≠ '/') :
    splitSlash l = [l] := by
  induction l with
  | nil => rfl
  | cons c r ih =>
    have hc : c ≠ '/' := h c (by simp)
    have hr := ih (fun x hx => h x (by simp [hx]))
    simp [splitSlash, hc, hr]

theorem splitSlash_append_slash (a X : List Char) (h : ∀ c ∈ a, c ≠ '/') :
    splitSlash (a ++ '/' :: X) = a :: splitSlash X := by
  induction a with
  | nil => simp [splitSlash]
  | cons c a ih =>
    have hc : c ≠ '/' := h c (by simp)
    have hr := ih (fun x hx => h x (by simp [hx]))
    simp [splitSlash, hc, hr]

theorem splitSlash_join (comps : List (List Char)) (h1 : comps ≠ [])
    (h2 : ∀ c ∈ comps, ∀ x ∈ c, x ≠ '/') :
    splitSlash (joinSlash comps) = comps := by
  induction comps with
  | nil => exact absurd rfl h1
  | cons a rest ih =>
    cases rest with
    | nil => simpa [joinSlash] using splitSlash_noslash a (h2 a (by simp))
    | cons b t =>
      have hj : joinSlash (a :: b :: t) = a ++ '/' :: joinSlash (b :: t) := rfl
      rw [hj, splitSlash_append_slash a _ (h2 a (by simp)),
        ih (by simp) (fun c hc x hx => h2 c (by simp [hc]) x hx)]

theorem splitSlash_dotdotslash (X : List Char) :
    splitSlash ('.' :: '.' :: '/' :: X) = ['.', '.'] :: splitSlash X := by
  have h : ('.' : Char) ≠ '/' := by decide
  simp [splitSlash, h]

theorem sanitizeParts_dotdotslash (X : List Char) :
    sanitizeParts ('.' :: '.' :: '/' :: X) = sanitizeParts X := by
  simp [sanitizeParts, splitSlash_dotdotslash, isDroppedSeg]

theorem mem_joinSlash {x : Char} :
    ∀ {comps : List (List Char)}, x ∈ joinSlash comps →
      (∃ c ∈ comps, x ∈ c) ∨ x = '/' := by
  intro comps
  induction comps with
  | nil => simp [joinSlash]
  | cons a rest ih =>
    cases rest with
    | nil =>
      intro hx
      exact Or.inl ⟨a, by simp, by simpa [joinSlash] using hx⟩
    | cons b t =>
      intro hx
      have hx' : x ∈ a ++ '/' :: joinSlash (b :: t) := hx
      rcases List.mem_append.mp hx' with hxa | hxr
      · exact Or.inl ⟨a, by simp, hxa⟩
      · rcases List.mem_cons.mp hxr with rfl | hxj
        · exact Or.inr rfl
        · rcases ih hxj with ⟨c, hc, hxc⟩ | rfl
          · exact Or.inl ⟨c, by simp [hc], hxc⟩
          · exact Or.inr rfl

theorem joinSlash_cons_head (x : Char) (b : List Char)
    (t : List (List Char)) :
    ∃ Y, joinSlash ((x :: b) :: t) = x :: Y := by
  cases t with
  | nil => exact ⟨b, rfl⟩
  | cons u v => exact ⟨b ++ '/' :: joinSlash (u :: v), rfl⟩

theorem isSafeChar_not_space {x : Char} (h : isSafeChar x = true) :
    isPySpace x = false := by
  simp only [isSafeChar, Bool.or_eq_true, Bool.and_eq_true, decide_eq_true_eq,
    beq_iff_eq] at h
  rw [Bool.eq_false_iff]
  intro hsp
  simp only [isPySpace, Bool.or_eq_true, beq_iff_eq] at hsp
  omega

theorem isSafeChar_ne_slash {x : Char} (h : isSafeChar x = true) : x ≠ '/' := by
  intro heq
  subst heq
  exact absurd h (by decide)

theorem isSafeChar_ne_backslash {x : Char} (h : isSafeChar x = true) : x ≠ '\\' := by
  intro heq
  subst heq
  exact absurd h (by decide)

theorem clean_component_safe {x c : List Char} (h : clean_component x = some c) :
    matchesSafe c = true := by
  simp only [clean_component] at h
  split_ifs at h with h1 h2 h3
  all_goals
    first
    | exact Option.noConfusion h
    | (injection h with h'; exact h' ▸ h3)

theorem matchesSafe_facts {c : List Char} (h : matchesSafe c = true) :
    c ≠ [] ∧ ∀ x ∈ c, isSafeChar x = true := by
  unfold matchesSafe at h
  rw [Bool.and_eq_true] at h
  obtain ⟨h1, h2⟩ := h
  refine ⟨?_, ?_⟩
  · intro heq
    subst heq
    simp at h1
  · intro x hx
    exact List.all_eq_true.mp h2 x hx

theorem clean_component_of_safe {c : List Char} (h : matchesSafe c = true) :
    clean_component c = some c := by
  obtain ⟨hne, hall⟩ := matchesSafe_facts h
  have hnospace : ∀ x ∈ c, isPySpace x = false :=
    fun x hx => isSafeChar_not_space (hall x hx)
  have hnoslash : ∀ x ∈ c, x ≠ '/' :=
    fun x hx => isSafeChar_ne_slash (hall x hx)
  have hnobs : ∀ x ∈ c, x ≠ '\\' :=
    fun x hx => isSafeChar_ne_backslash (hall x hx)
  have hps : pyStrip c = c := pyStrip_eq_self c hnospace
  have hrb : replaceBackslash c = c := replaceBackslash_eq_self c hnobs
  have hslash : ∀ x ∈ c, ((x == '/') : Bool) = false := by
    intro x hx
    simpa using hnoslash x hx
  have hsse : stripSlashEnds c = c := by
    unfold stripSlashEnds
    rw [dropWhile_eq_self _ hslash,
      dropWhile_eq_self _ (fun x hx => hslash x (List.mem_reverse.mp hx)),
      List.reverse_reverse]
  have hsplit : splitSlash c = [c] := splitSlash_noslash c hnoslash
  have hce : c.isEmpty = false := by
    cases c
    · exact absurd rfl hne
    · rfl
  have hchain : stripSlashEnds (replaceBackslash (pyStrip c)) = c := by
    rw [hps, hrb, hsse]
  simp [clean_component, hchain, hce, hsplit, h]

theorem mapClean_mem_safe :
    ∀ {xs ys : List (List Char)}, mapClean xs = some ys →
      ∀ y ∈ ys, matchesSafe y = true := by
  intro xs
  induction xs with
  | nil =>
    intro ys h y hy
    simp only [mapClean] at h
    injection h with h'
    subst h'
    simp at hy
  | cons x xs ih =>
    intro ys h y hy
    unfold mapClean at h
    cases hcx : clean_component x <;> rw [hcx] at h
    · exact Option.noConfusion h
    · cases hm : mapClean xs <;> rw [hm] at h
      · exact Option.noConfusion h
      · injection h with h'
        subst h'
        rcases List.mem_cons.mp hy with rfl | hy'
        · exact clean_component_safe hcx
        · exact ih hm y hy'

theorem mapClean_fixed :
    ∀ {xs : List (List Char)}, (∀ x ∈ xs, clean_component x = some x) →
      mapClean xs = some xs := by
  intro xs
  induction xs with
  | nil => intro _; rfl
  | cons x xs ih =>
    intro h
    unfold mapClean
    rw [h x (by simp), ih (fun y hy => h y (by simp [hy]))]

theorem mapClean_eq_nil {xs : List (List Char)} (h : mapClean xs = some []) :
    xs = [] := by
  cases xs with
  | nil => rfl
  | cons x xs =>
    unfold mapClean at h
    cases hcx : clean_component x <;> rw [hcx] at h
    · exact Option.noConfusion h
    · cases hm : mapClean xs <;> rw [hm] at h
      · exact Option.noConfusion h
      · injection h with h'
        exact absurd h' (by simp)

theorem collapseSlash_join (comps : List (List Char))
    (hne : ∀ c ∈ comps, c ≠ [])
    (hns : ∀ c ∈ comps, ∀ x ∈ c, x ≠ '/') :
    collapseSlash (joinSlash comps) false = joinSlash comps := by
  induction comps with
  | nil => rfl
  | cons a rest ih =>
    cases rest with
    | nil =>
      have h0 : collapseSlash (a ++ []) false = a ++ collapseSlash [] false :=
        collapseSlash_append_noslash a [] (hns a (by simp))
      simpa [joinSlash, collapseSlash] using h0
    | cons b t =>
      have hj : joinSlash (a :: b :: t) = a ++ '/' :: joinSlash (b :: t) := rfl
      rw [hj, collapseSlash_append_noslash a _ (hns a (by simp))]
      have h1 : collapseSlash ('/' :: joinSlash (b :: t)) false =
          '/' :: collapseSlash (joinSlash (b :: t)) true := by
        simp [collapseSlash]
      rw [h1, collapseSlash_true_eq]
      have hbne := hne b (by simp)
      cases b with
      | nil => exact absurd rfl hbne
      | cons x b' =>
        obtain ⟨Y, hY⟩ := joinSlash_cons_head x b' t
        rw [hY]
        have hxs : ((x == '/') : Bool) = false := by
          simpa using hns (x :: b') (by simp) x (by simp)
        have hdw : (x :: Y).dropWhile (· == '/') = x :: Y := by
          simp [List.dropWhile, hxs]
        rw [hdw, ← hY,
          ih (fun c hc => hne c (by simp [hc])) (fun c hc => hns c (by simp [hc]))]

/-- Core of the `..`-dropping behaviour: after normalisation, a path that
begins with a `..` segment sanitizes exactly like the same path beginning
with a `.` segment — the segment is dropped, never rejected. -/
theorem sanitize_relpath_dotdot_eq_dot (l : List Char) :
    sanitize_relpath ('.' :: '.' :: '/' :: l) =
      sanitize_relpath ('.' :: '/' :: l) := by
  unfold sanitize_relpath
  rw [if_neg (by simp), if_neg (by simp)]
  have hrb1 : replaceBackslash ('.' :: '.' :: '/' :: l) =
      ['.', '.', '/'] ++ replaceBackslash l := rfl
  have hrb2 : replaceBackslash ('.' :: '/' :: l) =
      ['.', '/'] ++ replaceBackslash l := rfl
  rw [hrb1, hrb2]
  have hstrip : ∀ (c : Char) (r m : List Char), isPySpace c = false →
      pyStrip ((c :: r) ++ m) = pyRstrip ((c :: r) ++ m) := by
    intro c r m hc
    unfold pyStrip pyLstrip
    have hd : ((c :: r) ++ m).dropWhile isPySpace = (c :: r) ++ m := by
      simp [List.dropWhile, hc]
    rw [hd]
  rw [hstrip '.' ['.', '/'] _ (by decide), hstrip '.' ['/'] _ (by decide),
    pyRstrip_append, pyRstrip_append]
  by_cases hws : ((replaceBackslash l).reverse.dropWhile isPySpace).isEmpty
  · rw [if_pos hws, if_pos hws]
    rfl
  · rw [if_neg hws, if_neg hws]
    have hsd1 : stripDotSlash ('.' :: '.' :: '/' :: pyRstrip (replaceBackslash l)) =
        '.' :: '.' :: '/' :: pyRstrip (replaceBackslash l) := by
      have he : stripDotSlash ('.' :: '.' :: ('/' :: pyRstrip (replaceBackslash l))) =
          if ('.' : Char) = '.' ∧ ('.' : Char) = '/' then
            ('/' :: pyRstrip (replaceBackslash l)).dropWhile (· == '/')
          else '.' :: '.' :: '/' :: pyRstrip (replaceBackslash l) := rfl
      rw [he, if_neg (by simp)]
    have hsd2 : stripDotSlash ('.' :: '/' :: pyRstrip (replaceBackslash l)) =
        (pyRstrip (replaceBackslash l)).dropWhile (· == '/') := by
      have he : stripDotSlash ('.' :: '/' :: pyRstrip (replaceBackslash l)) =
          if ('.' : Char) = '.' ∧ ('/' : Char) = '/' then
            (pyRstrip (replaceBackslash l)).dropWhile (· == '/')
          else '.' :: '/' :: pyRstrip (replaceBackslash l) := rfl
      rw [he, if_pos (by simp)]
    have hc1 : collapseSlash ('.' :: '.' :: '/' :: pyRstrip (replaceBackslash l)) false =
        '.' :: '.' :: '/' :: collapseSlash (pyRstrip (replaceBackslash l)) true := by
      simp [collapseSlash]
    show sanitizeFromParts (sanitizeParts (collapseSlash
        (stripDotSlash ('.' :: '.' :: '/' :: pyRstrip (replaceBackslash l))) false)) =
      sanitizeFromParts (sanitizeParts (collapseSlash
        (stripDotSlash ('.' :: '/' :: pyRstrip (replaceBackslash l))) false))
    rw [hsd1, hsd2, hc1, sanitizeParts_dotdotslash, collapseSlash_true_eq]

/-- Core of the restricted idempotence property: a successful result whose
segments are none of `""`, `.` or `..` is a fixed point of the sanitizer. -/
theorem sanitize_relpath_fixed (l r : List Char)
    (h : sanitize_relpath l = some r)
    (h2 : ∀ seg ∈ splitSlash r, isDroppedSeg seg = false) :
    sanitize_relpath r = some r := by
  unfold sanitize_relpath at h
  by_cases hl : l.isEmpty
  · rw [if_pos hl] at h
    exact Option.noConfusion h
  rw [if_neg hl] at h
  unfold sanitizeFromParts at h
  by_cases hp : (sanitizeParts (collapseSlash (stripDotSlash (pyStrip
      (replaceBackslash l))) false)).isEmpty
  · rw [if_pos hp] at h
    exact Option.noConfusion h
  rw [if_neg hp] at h
  cases hm : mapClean (sanitizeParts (collapseSlash (stripDotSlash (pyStrip
      (replaceBackslash l))) false)) with
  | none =>
    rw [hm] at h
    exact Option.noConfusion h
  | some comps =>
    rw [hm] at h
    injection h with hr
    have hsafe : ∀ y ∈ comps, matchesSafe y = true := mapClean_mem_safe hm
    have hyne : ∀ y ∈ comps, y ≠ [] := fun y hy => (matchesSafe_facts (hsafe y hy)).1
    have hallsafe : ∀ y ∈ comps, ∀ x ∈ y, isSafeChar x = true :=
      fun y hy => (matchesSafe_facts (hsafe y hy)).2
    have hnoslash : ∀ y ∈ comps, ∀ x ∈ y, x ≠ '/' :=
      fun y hy x hx => isSafeChar_ne_slash (hallsafe y hy x hx)
    have hcompsne : comps ≠ [] := by
      intro heq
      subst heq
      exact hp (by simp [mapClean_eq_nil hm])
    have hsplit : splitSlash r = comps := hr ▸ splitSlash_join comps hcompsne hnoslash
    have h2' : ∀ y ∈ comps, isDroppedSeg y = false := fun y hy => h2 y (hsplit ▸ hy)
    have hchars : ∀ x ∈ r, isSafeChar x = true ∨ x = '/' := by
      intro x hx
      rw [← hr] at hx
      rcases mem_joinSlash hx with ⟨c, hc, hxc⟩ | rfl
      · exact Or.inl (hallsafe c hc x hxc)
      · exact Or.inr rfl
    have hnospace : ∀ x ∈ r, isPySpace x = false := by
      intro x hx
      rcases hchars x hx with hs | rfl
      · exact isSafeChar_not_space hs
      · decide
    have hnobs : ∀ x ∈ r, x ≠ '\\' := by
      intro x hx
      rcases hchars x hx with hs | rfl
      · exact isSafeChar_ne_backslash hs
      · decide
    have hrne : r ≠ [] := by
      rw [← hr]
      cases comps with
      | nil => exact absurd rfl hcompsne
      | cons a t =>
        have hane := hyne a (by simp)
        cases a with
        | nil => exact absurd rfl hane
        | cons x b =>
          obtain ⟨Y, hY⟩ := joinSlash_cons_head x b t
          rw [hY]
          simp
    have hnsd : ∀ t, r ≠ '.' :: '/' :: t := by
      intro t heq
      rw [← hr] at heq
      cases comps with
      | nil => exact hcompsne rfl
      | cons a rest =>
        have hane := hyne a (by simp)
        have hasafe : ∀ x ∈ a, isSafeChar x = true := hallsafe a (by simp)
        cases rest with
        | nil =>
          have hj : joinSlash [a] = a := rfl
          rw [hj] at heq
          have hmem : ('/' : Char) ∈ a := by
            rw [heq]
            simp
          exact isSafeChar_ne_slash (hasafe '/' hmem) rfl
        | cons u v =>
          have hj : joinSlash (a :: u :: v) = a ++ '/' :: joinSlash (u :: v) := rfl
          rw [hj] at heq
          cases a with
          | nil => exact hane rfl
          | cons x b =>
            simp only [List.cons_append] at heq
            injection heq with hx1 hrest
            subst hx1
            cases b with
            | nil =>
              have hd := h2' ['.'] (by simp)
              simp [isDroppedSeg] at hd
            | cons x2 b2 =>
              simp only [List.cons_append] at hrest
              injection hrest with hx2 _
              exact isSafeChar_ne_slash (hasafe x2 (by simp)) hx2
    have hps : pyStrip r = r := pyStrip_eq_self r hnospace
    have hrb : replaceBackslash r = r := replaceBackslash_eq_self r hnobs
    have hsd : stripDotSlash r = r := stripDotSlash_eq_self r hnsd
    have hcoll : collapseSlash r false = r := by
      rw [← hr]
      exact collapseSlash_join comps hyne hnoslash
    have hparts_r : sanitizeParts r = comps := by
      unfold sanitizeParts
      rw [hsplit]
      apply List.filter_eq_self.mpr
      intro y hy
      simp [h2' y hy]
    have hclean : mapClean comps = some comps :=
      mapClean_fixed (fun x hx => clean_component_of_safe (hsafe x hx))
    have hre : r.isEmpty = false := by
      cases r
      · exact absurd rfl hrne
      · rfl
    unfold sanitize_relpath
    rw [if_neg (by simp [hre]), hrb, hps, hsd, hcoll]
    unfold sanitizeFromParts
    rw [hparts_r, hclean]
    have hpe : comps.isEmpty = false := by
      cases comps
      · exact absurd rfl hcompsne
      · rfl
    rw [if_neg (by simp [hpe])]
    show some (joinSlash comps) = some r
    rw [hr]

/-! ## `ensure_under` (`structure_builder/sanitize.py`)

Absolute paths are modelled as lists of components from the filesystem
root.  `Path.resolve()` is modelled lexically (`..` pops one component,
clamped at the root as POSIX resolution is; `.` and empty components
vanish).  The escape guard `is_relative_to` is checked *after* resolution,
in the model exactly as in the code, so the guarantee proved below depends
only on the guard, not on the details of resolution (in particular not on
symlinks, which a lexical model cannot see). -/

/-- `Path(rel).parts` for a relative path string: split on `/`, dropping
empty and `.` components (`..` components are kept — `PurePath` keeps
them, and only `resolve()` eliminates them). -/
def pathParts (rel : List Char) : List (List Char) :=
  (splitSlash rel).filter (fun s => !(s.isEmpty || s == ['.']))

/-- `(base_p / rel).resolve()`, lexically: fold the relative components
onto the resolved absolute base. -/
def resolveJoin (base_p : List (List Char)) (segs : List (List Char)) :
    List (List Char) :=
  segs.foldl
    (fun acc seg =>
      if seg = ['.', '.'] then acc.dropLast
      else if seg = ['.'] ∨ seg = [] then acc
      else acc ++ [seg])
    base_p

/-- `target.is_relative_to(base_p)`: the base is a (possibly improper)
prefix of the target. -/
def is_relative_to (target base_p : List (List Char)) : Bool :=
  base_p.isPrefixOf target

/-- `sanitize.ensure_under`: join base and relative path, resolve, and
raise (`ValueError`, modelled as `Except.error`) unless the resolved
target stays under the resolved base. -/
def ensure_under (base_p : List (List Char)) (rel : List Char) :
    Except String (List (List Char)) :=
  let target := resolveJoin base_p (pathParts rel)
  if is_relative_to target base_p then .ok target
  else .error "Path escapes base"

/-! ## Filesystem model

The target directory is an association list from relative path to file
content; `lookupA` is `read_text` (with existence test) and `insertA` is
`write_text` (create or overwrite in place). -/

/-- File system: relative path ↦ content. -/
def FS := List (List Char × List Char)

/-- Read a file if it exists. -/
def lookupA (fs : FS) (k : List Char) : Option (List Char) :=
  match fs with
  | [] => none
  | (k', v) :: rest => if k' = k then some v else lookupA rest k

/-- Write a file: overwrite in place, or create. -/
def insertA (fs : FS) (k v : List Char) : FS :=
  match fs with
  | [] => [(k, v)]
  | (k', v') :: rest =>
    if k' = k then (k', v) :: rest else (k', v') :: insertA rest k v

theorem lookupA_insertA_self (fs : FS) (k v : List Char) :
    lookupA (insertA fs k v) k = some v := by
  induction fs with
  | nil => simp [insertA, lookupA]
  | cons p rest ih =>
    obtain ⟨k', v'⟩ := p
    by_cases h : k' = k <;> simp [insertA, lookupA, h, ih]

theorem lookupA_insertA_ne (fs : FS) (k k' v : List Char) (h : k ≠ k') :
    lookupA (insertA fs k v) k' = lookupA fs k' := by
  induction fs with
  | nil => simp [insertA, lookupA, h]
  | cons p rest ih =>
    obtain ⟨k0, v0⟩ := p
    by_cases h0 : k0 = k
    · subst h0
      simp [insertA, lookupA, h]
    · simp [insertA, lookupA, h0, ih]

/-! ## Reconciliation writers

`core._write_file` (`structure_builder/core.py`) and codefill's
`_should_write` (`tools/codefill.py`). -/

/-- `codefill._safe_normalize`: `s.replace("\r\n", "\n").replace("\r",
"\n").replace("\x00", "")`, applied in that order. -/
def replaceCRLF : List Char → List Char
  | '\r' :: '\n' :: r => '\n' :: replaceCRLF r
  | c :: r => c :: replaceCRLF r
  | [] => []

def replaceCR (l : List Char) : List Char :=
  l.map (fun c => if c == '\r' then '\n' else c)

def _safe_normalize (s : List Char) : List Char :=
  (replaceCR (replaceCRLF s)).filter (fun c => !(c == '\x00'))

/-- `codefill._should_write`: a missing file is always written; in `skip`
mode an existing file is never written; otherwise write exactly when the
*normalized* contents differ. -/
def _should_write (existing : Option (List Char)) (new : List Char)
    (mode : String) : Bool :=
  match existing with
  | none => true
  | some e =>
    if mode = "skip" then false
    else !(_safe_normalize e == _safe_normalize new)

/-- `core._write_file`: returns the updated file system and whether a
write was performed.  In `skip` mode an existing target is left alone;
in every other mode the body is written unconditionally. -/
def _write_file (fs : FS) (path body : List Char) (if_exists : String) :
    FS × Bool :=
  if (lookupA fs path).isSome ∧ if_exists = "skip" then (fs, false)
  else (insertA fs path body, true)

/-- The declared-files write loop of `core.build_from_text`
(lines 110–115): write every declared path with its resolved body
(defaulting to the empty string), recording created versus skipped. -/
def writeDeclared (fs : FS) (declared : List (List Char)) (filesOut : FS)
    (mode : String) : FS × List (List Char) × List (List Char) :=
  match declared with
  | [] => (fs, [], [])
  | rel :: rest =>
    let body := (lookupA filesOut rel).getD []
    let step := _write_file fs rel body mode
    let next := writeDeclared step.1 rest filesOut mode
    if step.2 then (next.1, rel :: next.2.1, next.2.2)
    else (next.1, next.2.1, rel :: next.2.2)

/-! ## `LLMClient.chat` retry loop (`tools/llm_client.py`)

The transport is modelled by the list of HTTP status codes the successive
attempts would observe.  One subtlety of the source is modelled exactly:
the `raise RuntimeError(...)` for a non-retryable status sits *inside* the
`try` block, so it is caught by the surrounding `except Exception`; that
handler re-raises only `httpx.HTTPStatusError` instances (and a
`RuntimeError` is not one), so on any attempt before the last the handler
sleeps and retries. -/

inductive ChatOutcome
  | ok (attempt : Nat)
  | raised (attempt : Nat)
  | exhausted
deriving DecidableEq, Repr

/-- One pass of `for attempt in range(1, max_retries + 1)`: `n` counts the
iterations still available (including the current one) and `idx` is the
1-based attempt number. -/
def chatFor : List Nat → Nat → Nat → ChatOutcome
  | _, 0, _ => .exhausted
  | [], _ + 1, _ => .exhausted
  | status :: rest, n + 1, idx =>
    if status = 200 then .ok idx
    else if status = 429 then chatFor rest n (idx + 1)
    else if status = 500 ∨ status = 502 ∨ status = 503 ∨ status = 504 then
      chatFor rest n (idx + 1)
    else
      -- `raise RuntimeError` … caught by `except Exception`:
      -- re-raised only on the final attempt, otherwise retried.
      if n = 0 then .raised idx
      else chatFor rest n (idx + 1)

/-- `LLMClient.chat`, reduced to its retry decision. -/
def LLMClient_chat (maxRetries : Nat) (statuses : List Nat) : ChatOutcome :=
  chatFor statuses maxRetries 1

/-! ## Structure inferrer (`structure_builder/llm_normalizer.py`)

The Gateway's `chat_json` result is a parameter: `Except` error (the
exception `chat_json` raised) or a loosely-shaped JSON value. -/

inductive JVal
  | jstr (s : List Char)
  | jarr (xs : List JVal)
  | jobj (fields : List (List Char × JVal))
  | jother

/-- Look up a key in a JSON object field list. -/
def jlookup (fields : List (List Char × JVal)) (k : List Char) : Option JVal :=
  match fields with
  | [] => none
  | (k', v) :: rest => if k' = k then some v else jlookup rest k

/-- `str(f).strip().lstrip("./").lstrip("/")` for one entry of the `files`
array (`lstrip("./")` removes every leading `.` or `/` character). -/
def normFileEntry (f : List Char) : List Char :=
  ((pyStrip f).dropWhile (fun c => c == '.' || c == '/')).dropWhile (· == '/')

/-- Order-preserving de-duplication, `list(dict.fromkeys(files))`. -/
def dedupKeep : List (List Char) → List (List Char)
  | [] => []
  | x :: xs => x :: (dedupKeep xs).filter (fun y => !(y == x))

/-- `llm_normalizer.llm_extract_file_list`, over the Gateway result: a
Gateway exception propagates; a response that is not a dict with a
`files` key raises `RuntimeError("LLM did not return expected list
JSON...")`; otherwise the root is the stripped `root` string and the
files are the normalised non-blank entries, de-duplicated in order.
String entries model the `str(f)` coercion; non-string entries are not
produced by the prompts and are dropped here. -/
def llm_extract_file_list (chatJson : Except (List Char) JVal) :
    Except (List Char) (List Char × List (List Char)) :=
  match chatJson with
  | .error e => .error e
  | .ok obj =>
    match obj with
    | .jobj fields =>
      match jlookup fields ['f', 'i', 'l', 'e', 's'] with
      | none => .error ("LLM did not return expected list JSON".data)
      | some filesV =>
        let root :=
          match jlookup fields ['r', 'o', 'o', 't'] with
          | some (.jstr s) => pyStrip s
          | _ => []
        let files :=
          match filesV with
          | .jarr xs =>
            xs.filterMap (fun v =>
              match v with
              | .jstr f => if (pyStrip f).isEmpty then none else some (normFileEntry f)
              | _ => none)
          | _ => []
        .ok (root, dedupKeep files)
    | _ => .error ("LLM did not return expected list JSON".data)

/-- The bundle shape returned by `parse_dump_bundle`. -/
structure Bundle where
  root : List Char
  files : List (List Char × List Char)
  placeholders : List (List Char)
  notes : List (List Char)

/-- `llm_normalizer.parse_dump_bundle`: run the list extraction (its
exception propagates uncaught), then the blob extraction (modelled as an
external call on the extracted file list, whose exception also
propagates), then assemble the bundle.  There is no fallback path. -/
def parse_dump_bundle (chatJson : Except (List Char) JVal)
    (blobs : List (List Char) → Except (List Char) (List (List Char × List Char)))
    (root_hint : Option (List Char)) : Except (List Char) Bundle :=
  match llm_extract_file_list chatJson with
  | .error e => .error e
  | .ok (root0, files) =>
    let root := if root0.isEmpty then (root_hint.getD []) else root0
    match blobs files with
    | .error e => .error e
    | .ok bl =>
      .ok { root := if root.isEmpty then ("generated-project".data) else root
            files := bl
            placeholders := []
            notes := [] }

/-! ## Backfill (`structure_builder/groq_openai.py`) -/

/-- `groq_openai.llm_backfill_file`: without credentials return the
generic fallback stub; with credentials, return the stripped Gateway
text, or the generic error stub when the call raises. -/
def llm_backfill_file (path : List Char) (have_keys : Bool)
    (chat : Except (List Char) (List Char)) : List Char :=
  if !have_keys then
    ("# Fallback stub for ".data) ++ path ++ (": LLM provider key not set.".data)
  else
    match chat with
    | .ok out => pyStrip out
    | .error _ =>
      ("# Auto-generated stub for ".data) ++ path ++ (" after LLM error.\n".data)

/-! ## Run coordinator guard (`tools/prestart_codefill.py`) -/

inductive PrestartAction
  | runCodefill
deriving DecidableEq, Repr

/-- Result of `maybe_run_codefill_once`: whether it skipped, the reported
reason, and the effects performed (running the build is the only
modelled effect; it is the sole source of file writes and Gateway
calls). -/
structure PrestartResult where
  skipped : Bool
  reason : List Char
  actions : List PrestartAction

/-- `prestart_codefill.maybe_run_codefill_once`, over the environment
flag, dump discovery, the marker's recorded hash and the current dump
hash. -/
def maybe_run_codefill_once (enable dumpFound : Bool)
    (prevHash newHash : List Char) : PrestartResult :=
  if !enable then ⟨true, "CODEFILL_ENABLE=0".data, []⟩
  else if !dumpFound then ⟨true, "dump file not found".data, []⟩
  else if !prevHash.isEmpty ∧ !newHash.isEmpty ∧ prevHash = newHash then
    ⟨true, "dump unchanged".data, []⟩
  else ⟨false, [], [.runCodefill]⟩

/-! ## Deterministic extractors

The audit-side extractor `_extract_from_headings`
(`structure_builder/audit.py`) works over the raw dump text; the
parser-side `_map_content_to_files` (`tools/project_parser.py`) walks the
dump line by line.  The regular expressions of the source are
hand-compiled into matchers with the same semantics, backtracking
included.  Lines are obtained by splitting on `\n`; a trailing empty
piece (absent from Python's `splitlines`) matches no heading and no
fence, so it is inert.  `HEADING_RE`'s leading `\s*` can, in the source,
swallow a preceding blank line and its trailing `\s*$` can swallow
following blank lines; neither changes the captured path nor which fence
follows, so the per-line model is observationally the same. -/

def splitLines : List Char → List (List Char)
  | [] => [[]]
  | c :: rest =>
    if c = '\n' then [] :: splitLines rest
    else
      match splitLines rest with
      | [] => [[c]]
      | h :: t => (c :: h) :: t

def joinLines : List (List Char) → List Char
  | [] => []
  | [a] => a
  | a :: rest => a ++ '\n' :: joinLines rest

/-- Length of the run of `c` at the head of the list. -/
def countRun (c : Char) : List Char → Nat
  | x :: r => if x = c then countRun c r + 1 else 0
  | [] => 0

/-- The character class `[A-Za-z0-9._/\-]` of the unquoted heading token. -/
def isNqChar (c : Char) : Bool := isSafeChar c || c == '/'

/-- `audit.HEADING_RE` applied to one line: optional whitespace, two to
six `#`, optional whitespace, then either a backticked token or a bare
path token, then only whitespace.  Returns the captured token. -/
def headingLine (line : List Char) : Option (List Char) :=
  let l1 := line.dropWhile isPySpace
  let h := countRun '#' l1
  if 2 ≤ h ∧ h ≤ 6 then
    let l2 := (l1.drop h).dropWhile isPySpace
    match l2 with
    | '`' :: r =>
      let q := r.takeWhile (fun c => !(c == '`'))
      match r.drop q.length with
      | '`' :: tail =>
        if q.isEmpty then none
        else if (tail.dropWhile isPySpace).isEmpty then some q else none
      | _ => none
    | _ =>
      let nq := l2.takeWhile isNqChar
      if nq.isEmpty then none
      else if ((l2.drop nq.length).dropWhile isPySpace).isEmpty then some nq
      else none
  else none

/-- `[^\n]*\n` — skip the remainder of the opening-fence line; fails when
no newline follows (then the fence has no body to capture). -/
def restAfterNewline : List Char → Option (List Char)
  | [] => none
  | c :: r => if c = '\n' then some r else restAfterNewline r

/-- The lazy `(.*?)\n(?P=fence)` of `audit.FENCE_RE`: the shortest body
followed by a newline and the exact opening fence string. -/
def fenceBody (fence : List Char) : List Char → Option (List Char)
  | [] => none
  | c :: r =>
    if c = '\n' ∧ fence.isPrefixOf r then some []
    else
      match fenceBody fence r with
      | some b => some (c :: b)
      | none => none

/-- Backtracking over the greedy fence run: try the full run first, then
shorter runs down to three characters (shorter runs leave the excess to
`[^\n]*`). -/
def fenceTry (c : Char) (s : List Char) : Nat → Option (List Char)
  | 0 => none
  | k + 1 =>
    if k + 1 < 3 then none
    else
      match restAfterNewline (s.drop (k + 1)) with
      | none => fenceTry c s k
      | some afterLine =>
        match fenceBody (List.replicate (k + 1) c) afterLine with
        | some b => some b
        | none => fenceTry c s k

/-- Try `audit.FENCE_RE` at one position of the text. -/
def fenceAt (s : List Char) : Option (List Char) :=
  match s with
  | c :: _ =>
    if c = '`' ∨ c = '~' then fenceTry c s (countRun c s)
    else none
  | [] => none

/-- `FENCE_RE.search`: leftmost position at which the fence pattern
matches; returns the captured body. -/
def fenceSearch : List Char → Option (List Char)
  | [] => none
  | c :: r =>
    match fenceAt (c :: r) with
    | some b => some b
    | none => fenceSearch r

/-- `audit.WHITELIST_BARE_FILENAMES`. -/
def WHITELIST_BARE_FILENAMES : List (List Char) :=
  ["Dockerfile".data, "README.md".data, "README".data, ".env".data,
   ".env.example".data, "docker-compose.yml".data, "requirements.txt".data,
   "pyproject.toml".data, ".gitignore".data]

/-- The heading scan of `audit._extract_from_headings`: headings in
document order; the first heading that sanitizes to a candidate path (and
is not a non-whitelisted bare filename) and is followed by a fence
returns that fence's body. -/
def extractLoop (cands : List (List Char)) : List (List Char) → Option (List Char)
  | [] => none
  | line :: rest =>
    let cont := extractLoop cands rest
    match headingLine line with
    | none => cont
    | some rawPath =>
      match sanitize_relpath rawPath with
      | none => cont
      | some norm =>
        if !(norm.contains '/') ∧ !(WHITELIST_BARE_FILENAMES.contains norm) then
          cont
        else if cands.contains norm then
          match fenceSearch (joinLines rest) with
          | some body => some (replaceCRLF body)
          | none => cont
        else cont

/-- `audit._extract_from_headings raw root rel_path`: accept both `rel`
and `root/rel` headings. -/
def _extract_from_headings (raw root rel_path : List Char) :
    Option (List Char) :=
  extractLoop [rel_path, root ++ '/' :: rel_path] (splitLines raw)

/-! ### `tools/parsing_utils.py` matchers -/

def isAsciiLetter (c : Char) : Bool :=
  let n := c.toNat
  (65 ≤ n && n ≤ 90) || (97 ≤ n && n ≤ 122)

def isAsciiDigit (c : Char) : Bool :=
  let n := c.toNat
  48 ≤ n && n ≤ 57

def isAlnumAscii (c : Char) : Bool := isAsciiLetter c || isAsciiDigit c

/-- Regex word characters `\w` (ASCII): letters, digits, underscore. -/
def isWordChar (c : Char) : Bool := isAlnumAscii c || c == '_'

/-- `parsing_utils.FENCE_RE.match(line)`: optional whitespace, a run of
three or more backticks or tildes, an alphanumeric language hint, then
only whitespace. -/
def isFenceLine (line : List Char) : Bool :=
  let l1 := line.dropWhile isPySpace
  match l1 with
  | c :: _ =>
    if c = '`' ∨ c = '~' then
      let n := countRun c l1
      if 3 ≤ n then
        let l2 := l1.drop n
        let lang := l2.takeWhile isAlnumAscii
        ((l2.drop lang.length).dropWhile isPySpace).isEmpty
      else false
    else false
  | [] => false

/-- Backtracking for the `cls+ \. [a-zA-Z]{2,} \b` suffix of the two
heading-extraction patterns: try the greedy prefix length first, then
shorter ones; at each length require a literal dot, at least two letters,
and a trailing non-word boundary.  Returns the total matched length. -/
def tryDotSuffix (T : List Char) : Nat → Option Nat
  | 0 => none
  | bLen + 1 =>
    let res :=
      match T.drop (bLen + 1) with
      | '.' :: rest2 =>
        let L := rest2.takeWhile isAsciiLetter
        if 2 ≤ L.length then
          match rest2.drop L.length with
          | [] => some (bLen + 1 + 1 + L.length)
          | c :: _ =>
            if isWordChar c then none else some (bLen + 1 + 1 + L.length)
        else none
      | _ => none
    match res with
    | some n => some n
    | none => tryDotSuffix T bLen

/-- Try `HEADING_PATH_EXTRACT_RE` at one position (given the previous
character for the leading `\b`). -/
def matchPathAt (prev : Option Char) (s : List Char) : Option (List Char) :=
  let a := s.takeWhile isSafeChar
  if a.isEmpty then none
  else
    let prevWord := match prev with | some p => isWordChar p | none => false
    let curWord := match s with | c :: _ => isWordChar c | [] => false
    if prevWord == curWord then none
    else
      match s.drop a.length with
      | '/' :: T =>
        let maxB := (T.takeWhile isNqChar).length
        match tryDotSuffix T maxB with
        | some len => some (a ++ '/' :: T.take len)
        | none => none
      | _ => none

def searchPathAux (prev : Option Char) : List Char → Option (List Char)
  | [] => none
  | c :: r =>
    match matchPathAt prev (c :: r) with
    | some p => some p
    | none => searchPathAux (some c) r

/-- `HEADING_PATH_EXTRACT_RE.search(line)`. -/
def searchPath (line : List Char) : Option (List Char) :=
  searchPathAux none line

/-- Try `HEADING_FILENAME_EXTRACT_RE` at one position. -/
def matchFilenameAt (prev : Option Char) (s : List Char) : Option (List Char) :=
  let a := s.takeWhile isSafeChar
  if a.isEmpty then none
  else
    let prevWord := match prev with | some p => isWordChar p | none => false
    let curWord := match s with | c :: _ => isWordChar c | [] => false
    if prevWord == curWord then none
    else
      match tryDotSuffix s a.length with
      | some len => some (s.take len)
      | none => none

def searchFilenameAux (prev : Option Char) : List Char → Option (List Char)
  | [] => none
  | c :: r =>
    match matchFilenameAt prev (c :: r) with
    | some p => some p
    | none => searchFilenameAux (some c) r

/-- `HEADING_FILENAME_EXTRACT_RE.search(line)`. -/
def searchFilename (line : List Char) : Option (List Char) :=
  searchFilenameAux none line

/-- `s.strip(ch)` for a single strip character. -/
def stripCharEnds (ch : Char) (l : List Char) : List Char :=
  ((l.dropWhile (· == ch)).reverse.dropWhile (· == ch)).reverse

/-- `parsing_utils._norm_rel`: strip whitespace, strip backticks, turn
backslashes into slashes, then `lstrip("./")` (any leading `.` or `/`
characters) and `lstrip("/")`. -/
def norm_rel (p : List Char) : List Char :=
  let p1 := replaceBackslash (stripCharEnds '`' (pyStrip p))
  (p1.dropWhile (fun c => c == '.' || c == '/')).dropWhile (· == '/')

/-- `parsing_utils._strip_root_prefix`. -/
def strip_root_prefix (rel root_name : List Char) : List Char :=
  let rn := norm_rel root_name
  let r := norm_rel rel
  if (rn ++ ['/']).isPrefixOf r then r.drop (rn.length + 1) else r

/-- ASCII `str.lower`. -/
def toLowerAscii (c : Char) : Char :=
  if 65 ≤ c.toNat ∧ c.toNat ≤ 90 then Char.ofNat (c.toNat + 32) else c

/-- Python's `in` on strings: substring test. -/
def strContains (needle : List Char) : List Char → Bool
  | [] => needle.isEmpty
  | c :: t => needle.isPrefixOf (c :: t) || strContains needle t

/-- `"continued" in heading.lower()`. -/
def containsContinued (heading : List Char) : Bool :=
  strContains ("continued".data) (heading.map toLowerAscii)

/-! ### `ProjectParser._map_content_to_files` -/

structure FileCtx where
  path : List Char
  heading : List Char
deriving DecidableEq

/-- The filename fallback of the heading scan: when a simple filename is
found and some declared file ends with it, the context switches to the
first such file; otherwise the context is left unchanged. -/
def filenameCtx (allFiles : List (List Char)) (line : List Char)
    (ctx : Option FileCtx) : Option FileCtx :=
  match searchFilename line with
  | some fname =>
    match allFiles.filter (fun p => p == fname || ('/' :: fname).isSuffixOf p) with
    | [] => ctx
    | q :: _ => some ⟨q, line⟩
  | none => ctx

/-- Context update for one non-fence line: a path-like token that
normalises to a declared file wins; otherwise the filename fallback. -/
def headingCtx (root : List Char) (allFiles : List (List Char))
    (line : List Char) (ctx : Option FileCtx) : Option FileCtx :=
  match searchPath line with
  | some p =>
    let path := strip_root_prefix (norm_rel p) root
    if allFiles.contains path then some ⟨path, line⟩
    else filenameCtx allFiles line ctx
  | none => filenameCtx allFiles line ctx

/-- The state machine of `_map_content_to_files`: walking the lines with
the current file context, fence flag, accumulated block and the mapping
built so far.  Closing a fence assigns the block to the context's path
(appending instead when the heading says "continued") and resets the
context. -/
def mapContentLoop (root : List Char) (allFiles : List (List Char)) :
    List (List Char) → Option FileCtx → Bool → List (List Char) →
    List (List Char × List Char) → List (List Char × List Char)
  | [], _, _, _, found => found
  | line :: rest, ctx, inFence, block, found =>
    if inFence then
      if isFenceLine line then
        let found' :=
          match ctx with
          | none => found
          | some c =>
            if containsContinued c.heading then
              match lookupA found c.path with
              | some old =>
                insertA found c.path (old ++ '\n' :: '\n' :: joinLines block)
              | none => insertA found c.path (joinLines block)
            else insertA found c.path (joinLines block)
        mapContentLoop root allFiles rest none false [] found'
      else
        mapContentLoop root allFiles rest ctx true (block ++ [line]) found
    else
      if isFenceLine line then
        mapContentLoop root allFiles rest ctx true block found
      else
        mapContentLoop root allFiles rest (headingCtx root allFiles line ctx)
          false block found

/-- `ProjectParser._map_content_to_files`. -/
def _map_content_to_files (root raw : List Char)
    (allFiles : List (List Char)) : List (List Char × List Char) :=
  mapContentLoop root allFiles (splitLines raw) none false [] []

/-! ## Post-build audit (`structure_builder/audit.py`)

`audit_and_fill` walks the declared files, reconciling each against the
deterministic fence content, falling back to the two Gateway calls.  The
two Gateway helpers are parameters `llmE` (single-file extraction) and
`llmB` (backfill), returning `none` when the call raises — the caller
turns that into the empty string, exactly as the `try/except` blocks do.
The per-path fence cache of the source is semantically transparent (the
cached function is pure here) and is not modelled. -/

/-- `audit._is_empty_or_stub`. -/
def _is_empty_or_stub (body : List Char) : Bool :=
  let s := pyStrip body
  s.isEmpty || s.length < 5 || strContains ("Auto-backfilled stub".data) s

/-- Lexicographic comparison of strings by code point, Python's `<=`. -/
def lexLe : List Char → List Char → Bool
  | [], _ => true
  | _ :: _, [] => false
  | x :: xs, y :: ys => if x < y then true else if y < x then false else lexLe xs ys

def insertSorted (x : List Char) : List (List Char) → List (List Char)
  | [] => [x]
  | y :: ys => if lexLe x y then x :: y :: ys else y :: insertSorted x ys

/-- `sorted(...)` over strings. -/
def sortStrings : List (List Char) → List (List Char)
  | [] => []
  | x :: xs => insertSorted x (sortStrings xs)

structure AuditState where
  fs : FS
  created : List (List Char)
  updated : List (List Char)
  unchanged : List (List Char)
  llm_filled : List (List Char)
  failed : List (List Char)

/-- One iteration of the `for rel in rel_list` loop of `audit_and_fill`. -/
def auditStep (raw root : List Char) (base : List (List Char))
    (llmE llmB : List Char → Option (List Char))
    (st : AuditState) (rel : List Char) : AuditState :=
  match ensure_under base rel with
  | .error _ => st
  | .ok _ =>
    let exists_ := (lookupA st.fs rel).isSome
    let existing := (lookupA st.fs rel).getD []
    let fence := _extract_from_headings raw root rel
    let fenceContent := fence.getD []
    if fence.isSome ∧ !(pyStrip fenceContent).isEmpty then
      if !exists_ then
        { st with fs := insertA st.fs rel fenceContent,
                  created := st.created ++ [rel] }
      else if existing ≠ fenceContent then
        { st with fs := insertA st.fs rel fenceContent,
                  updated := st.updated ++ [rel] }
      else
        { st with unchanged := st.unchanged ++ [rel] }
    else
      if _is_empty_or_stub existing then
        let llm_body := (llmE rel).getD []
        if !(pyStrip llm_body).isEmpty then
          { st with fs := insertA st.fs rel llm_body,
                    created := if existing.isEmpty then st.created ++ [rel] else st.created,
                    updated := if existing.isEmpty then st.updated else st.updated ++ [rel],
                    llm_filled := st.llm_filled ++ [rel] }
        else
          let backfill := (llmB rel).getD []
          if !(pyStrip backfill).isEmpty then
            { st with fs := insertA st.fs rel backfill,
                      created := if existing.isEmpty then st.created ++ [rel] else st.created,
                      updated := if existing.isEmpty then st.updated else st.updated ++ [rel],
                      llm_filled := st.llm_filled ++ [rel] }
          else
            { st with failed := st.failed ++ [rel] }
      else
        { st with unchanged := st.unchanged ++ [rel] }

/-- `audit.audit_and_fill`: filter to sanitizable paths, de-duplicate,
sort, then fold the per-path reconciliation over the file system. -/
def audit_and_fill (raw root : List Char) (base : List (List Char))
    (llmE llmB : List Char → Option (List Char))
    (fs0 : FS) (declared : List (List Char)) : AuditState :=
  let rel_list :=
    sortStrings (dedupKeep (declared.filter (fun p => (sanitize_relpath p).isSome)))
  rel_list.foldl (auditStep raw root base llmE llmB)
    ⟨fs0, [], [], [], [], []⟩

/-- `core.build_from_text` in `skip` mode with the default post-build
audit (`verify_with_llm = True`): the declared-files write pass followed
by `audit_and_fill`, given the normalisation stage's outputs (`declared`,
`filesOut`) and the Gateway helpers as inputs. -/
def build_skip_with_audit (raw root : List Char) (base : List (List Char))
    (llmE llmB : List Char → Option (List Char))
    (fs0 : FS) (declared : List (List Char)) (filesOut : FS) : AuditState :=
  let w := writeDeclared fs0 declared filesOut "skip"
  audit_and_fill raw root base llmE llmB w.1 declared

end ProjectBuilder

namespace ProjectBuilder

example : sanitizeRelpathStr "../../etc/passwd" = some "etc/passwd" := by decide

example :
    _extract_from_headings
      ("## app/x.py\n```\nONE\n```\n## app/x.py\n```\nTWO\n```\n".data)
      ("proj".data) ("app/x.py".data) = some ("ONE".data) := by decide

example :
    lookupA
      (_map_content_to_files ("proj".data)
        ("## app/x.py\n```\nONE\n```\n## app/x.py\n```\nTWO\n```\n".data)
        [("app/x.py".data)])
      ("app/x.py".data) = some ("TWO".data) := by decide

example : searchPath ("## `app/x.py`".data) = some ("app/x.py".data) := by decide
example : headingLine ("## `app/x.py`".data) = some ("app/x.py".data) := by decide
example : headingLine ("### app/x.py".data) = some ("app/x.py".data) := by decide
example : isFenceLine ("```python".data) = true := by decide
example : isFenceLine ("ONE".data) = false := by decide

/-! ## Claim C1 -/

/-- C1, counterexample: the spec's own example input `"../../etc/passwd"`
is not rejected; `sanitize_relpath` drops the `..` segments and returns
the partially sanitized path `"etc/passwd"`. -/
theorem c1_counterexample :
    sanitizeRelpathStr "../../etc/passwd" = some "etc/passwd" ∧
      sanitizeRelpathStr "../../etc/passwd" ≠ none := by
  decide

/-- C1, amended: a `..` segment is silently dropped, never a reason for
rejection — a leading `../` sanitizes exactly like a leading `./`, and
the spec's second example `"app/../../x"` yields `"app/x"` rather than
null.  (The whole path is still rejected when a remaining segment fails
the safe-character test or no segment remains.) -/
theorem c1_theorem :
    (∀ l : List Char,
        sanitize_relpath ('.' :: '.' :: '/' :: l) =
          sanitize_relpath ('.' :: '/' :: l)) ∧
      sanitizeRelpathStr "app/../../x" = some "app/x" :=
  ⟨sanitize_relpath_dotdot_eq_dot, by decide⟩

/-! ## Claim C10 -/

/-- C10, counterexample: `sanitize_relpath` is not idempotent — the input
`"a/ . /b"` sanitizes to `"a/./b"` (the whitespace-trimmed segment `" . "`
cleans to `"."` and survives), and re-sanitizing `"a/./b"` drops the `.`
segment, giving the different path `"a/b"`. -/
theorem c10_counterexample :
    sanitizeRelpathStr "a/ . /b" = some "a/./b" ∧
      sanitizeRelpathStr "a/./b" ≠ some "a/./b" := by
  decide

/-- C10, amended: `sanitize_relpath` is idempotent on every result none of
whose segments is `.` or `..`: such a result is a fixed point.  (A
segment of the output can be `.` or `..` only via whitespace-trimming
inside `clean_component`, as in the counterexample.) -/
theorem c10_theorem (l r : List Char)
    (h : sanitize_relpath l = some r)
    (h2 : ∀ seg ∈ splitSlash r, isDroppedSeg seg = false) :
    sanitize_relpath r = some r :=
  sanitize_relpath_fixed l r h h2

/-- C10, witness: the amended theorem applied at `"a/b"`. -/
theorem c10_witness :
    sanitize_relpath ("a/b".data) = some ("a/b".data) :=
  c10_theorem ("a/b".data) ("a/b".data) (by decide) (by decide)

/-! ## Claim C2 -/

/-- C2: `ensure_under` either returns a resolved path that is a descendant
of (or equal to) the resolved base directory, or raises; it never returns
a path outside the base.  The guard is applied to the already-resolved
target, so the property does not depend on how resolution behaves. -/
theorem c2_theorem (base : List (List Char)) (rel : List Char)
    (t : List (List Char)) (h : ensure_under base rel = .ok t) :
    is_relative_to t base = true := by
  unfold ensure_under at h
  by_cases hc : is_relative_to (resolveJoin base (pathParts rel)) base = true
  · rw [if_pos hc] at h
    injection h with h'
    exact h' ▸ hc
  · rw [if_neg hc] at h
    exact Except.noConfusion h

/-- C2, witness: `ensure_under` on base `/r` and relative `"app/../x"`
returns `/r/x`, which is under the base. -/
theorem c2_witness :
    is_relative_to [("r".data), ("x".data)] [("r".data)] = true :=
  c2_theorem [("r".data)] ("app/../x".data) [("r".data), ("x".data)] rfl

/-! ## Claim C5 -/

/-- C5, counterexample: `core._write_file` in `overwrite` mode performs
the write even when the resolved content is byte-identical to the
existing file (and the core loop then records the path as created, not
unchanged). -/
theorem c5_counterexample :
    (_write_file [(("a.py".data), ("x".data))] ("a.py".data) ("x".data)
        "overwrite").2 = true := by
  decide

/-- C5, amended: codefill's `_should_write` in `overwrite` mode writes
exactly when the *normalized* contents (CRLF and lone CR to LF, NUL
stripped) differ — in particular byte-identical content is never
rewritten — but `core._write_file` rewrites unconditionally in
`overwrite` mode, as the counterexample shows. -/
theorem c5_theorem (e new : List Char) :
    (_should_write (some e) new "overwrite" = true ↔
      _safe_normalize e ≠ _safe_normalize new) ∧
      (e = new → _should_write (some e) new "overwrite" = false) := by
  constructor
  · show (if ("overwrite" : String) = "skip" then false
        else !(_safe_normalize e == _safe_normalize new)) = true ↔
      _safe_normalize e ≠ _safe_normalize new
    rw [if_neg (by decide)]
    simp
  · intro h
    subst h
    show (if ("overwrite" : String) = "skip" then false
        else !(_safe_normalize e == _safe_normalize e)) = false
    rw [if_neg (by decide)]
    simp

/-- C5, witness: the amended theorem applied at byte-identical contents. -/
theorem c5_witness :
    _should_write (some ("x".data)) ("x".data) "overwrite" = false :=
  (c5_theorem ("x".data) ("x".data)).2 rfl

/-! ## Claim C6 -/

/-- C6: the claim that no 4xx status other than 429 is ever retried is
violated by the code itself — the `raise RuntimeError` for such statuses
sits inside the `try`, is caught by the generic `except Exception`
handler, which re-raises only `httpx.HTTPStatusError` instances, so the
client sleeps and retries.  At the failing input (a 400 response followed
by a 200) the call succeeds on attempt two instead of raising on attempt
one; with five straight 400s it raises only on the final attempt. -/
theorem c6_theorem :
    LLMClient_chat 5 [400, 200] = ChatOutcome.ok 2 ∧
      LLMClient_chat 5 [400, 400, 400, 400, 400] = ChatOutcome.raised 5 := by
  decide

/-! ## Claim C7 -/

/-- C7, counterexample: a Gateway failure is not swallowed — the
exception propagates out of `parse_dump_bundle` instead of the
deterministic extractor's path list being returned. -/
theorem c7_counterexample :
    parse_dump_bundle (.error ("boom".data)) (fun _ => .ok []) none =
      .error ("boom".data) := by
  rfl

/-- C7, amended: on a Gateway failure `llm_extract_file_list` raises and
`parse_dump_bundle` propagates the exception to its caller, and a
malformed (non-object) structure response raises `RuntimeError("LLM did
not return expected list JSON...")`; there is no fallback to the
deterministic extractor's path list. -/
theorem c7_theorem :
    (∀ (e : List Char)
        (blobs : List (List Char) →
          Except (List Char) (List (List Char × List Char)))
        (hint : Option (List Char)),
        parse_dump_bundle (.error e) blobs hint = .error e) ∧
      (∀ (blobs : List (List Char) →
          Except (List Char) (List (List Char × List Char)))
        (hint : Option (List Char)),
        parse_dump_bundle (.ok .jother) blobs hint =
          .error ("LLM did not return expected list JSON".data)) :=
  ⟨fun _ _ _ => rfl, fun _ _ => rfl⟩

/-! ## Claim C9 -/

/-- C9: when the marker file records the same (non-empty) hash as the
current dump, the coordinator skips the whole build: it reports the run
as skipped with reason "dump unchanged" and performs no action at all —
in particular `codefill_run` is not invoked, so no file is written and no
Gateway call is made. -/
theorem c9_theorem (prevHash newHash : List Char)
    (h1 : prevHash ≠ []) (h2 : prevHash = newHash) :
    maybe_run_codefill_once true true prevHash newHash =
      ⟨true, "dump unchanged".data, []⟩ := by
  subst h2
  unfold maybe_run_codefill_once
  have hb : prevHash.isEmpty = false := by
    cases prevHash with
    | nil => exact absurd rfl h1
    | cons a t => rfl
  rw [if_neg (by decide), if_neg (by decide),
    if_pos ⟨by simp [hb], by simp [hb], rfl⟩]

/-- C9, witness: the theorem applied at matching hash `"abc"`. -/
theorem c9_witness :
    maybe_run_codefill_once true true ("abc".data) ("abc".data) =
      ⟨true, "dump unchanged".data, []⟩ :=
  c9_theorem ("abc".data) ("abc".data) (by decide) rfl

/-! ## Claim C4 -/

theorem writeDeclared_fst (fs : FS) (rel : List Char)
    (rest : List (List Char)) (filesOut : FS) (mode : String) :
    (writeDeclared fs (rel :: rest) filesOut mode).1 =
      (writeDeclared (_write_file fs rel ((lookupA filesOut rel).getD []) mode).1
        rest filesOut mode).1 := by
  conv_lhs => rw [writeDeclared]
  by_cases h : (_write_file fs rel ((lookupA filesOut rel).getD []) mode).2 = true <;>
    simp [h]

theorem write_file_skip_frame (fs : FS) (rel body p c : List Char)
    (h : lookupA fs p = some c) :
    lookupA (_write_file fs rel body "skip").1 p = some c := by
  unfold _write_file
  by_cases hex : (lookupA fs rel).isSome
  · rw [if_pos ⟨hex, rfl⟩]
    exact h
  · rw [if_neg (by simp [hex])]
    have hne : rel ≠ p := by
      intro heq
      subst heq
      rw [h] at hex
      simp at hex
    show lookupA (insertA fs rel body) p = some c
    rw [lookupA_insertA_ne _ _ _ _ hne]
    exact h

/-- C4, counterexample: a `skip`-mode build over an existing file
`app/x.py` containing `"OLD"` — the write phase leaves it alone, but the
post-build audit (enabled by default) finds the deterministic fence
content `"NEW"` for that path and overwrites the file, so the existing
content is not byte-identical after the run. -/
theorem c4_counterexample :
    lookupA
      (build_skip_with_audit
        ("## app/x.py\n```\nNEW\n```\n".data) ("proj".data) [("r".data)]
        (fun _ => none) (fun _ => none)
        [(("app/x.py".data), ("OLD".data))] [("app/x.py".data)] []).fs
      ("app/x.py".data) = some ("NEW".data) ∧
      ("NEW".data : List Char) ≠ ("OLD".data) := by
  decide

/-- C4, amended: the `skip`-mode guarantee holds for the write phase
alone — with mode `skip`, `_write_file` (hence the declared-files loop)
never alters the content of any file that already exists — but the
post-build audit phase, which takes no mode, replaces an existing file
whenever its content differs from the deterministic fence content, as
the counterexample shows; the claim therefore holds only with the audit
(`verify_with_llm`) disabled. -/
theorem c4_theorem (declared : List (List Char)) (fs filesOut : FS)
    (p c : List Char) (h : lookupA fs p = some c) :
    lookupA (writeDeclared fs declared filesOut "skip").1 p = some c := by
  induction declared generalizing fs with
  | nil => simpa [writeDeclared] using h
  | cons rel rest ih =>
    rw [writeDeclared_fst]
    exact ih _ (write_file_skip_frame fs rel _ p c h)

/-- C4, witness: the amended theorem applied at a one-file system. -/
theorem c4_witness :
    lookupA
      (writeDeclared [(("a.py".data), ("x".data))] [("a.py".data)] []
        "skip").1 ("a.py".data) = some ("x".data) :=
  c4_theorem [("a.py".data)] [(("a.py".data), ("x".data))] []
    ("a.py".data) ("x".data) (by decide)

/-! ## Claim C8 -/

theorem auditStep_fs_cases (raw root : List Char) (base : List (List Char))
    (llmE llmB : List Char → Option (List Char)) (st : AuditState)
    (rel : List Char) :
    (auditStep raw root base llmE llmB st rel).fs = st.fs ∨
      ∃ X, (auditStep raw root base llmE llmB st rel).fs = insertA st.fs rel X ∧
        (pyStrip X).isEmpty = false := by
  unfold auditStep
  cases ensure_under base rel with
  | error e => exact Or.inl rfl
  | ok tgt =>
    dsimp only
    split_ifs with h1 h2 h3 h4 h5 h6 h7 h8 <;>
      first
      | exact Or.inl rfl
      | exact Or.inr ⟨_, rfl, by simp_all⟩

theorem auditFold_blank_frame (raw root : List Char) (base : List (List Char))
    (llmE llmB : List Char → Option (List Char)) :
    ∀ (rels : List (List Char)) (st : AuditState) (p c : List Char),
      lookupA ((rels.foldl (auditStep raw root base llmE llmB) st)).fs p = some c →
      lookupA st.fs p = some c ∨ pyStrip c ≠ [] := by
  intro rels
  induction rels with
  | nil =>
    intro st p c h
    exact Or.inl h
  | cons rel rest ih =>
    intro st p c h
    rcases ih _ p c h with h' | hnb
    · rcases auditStep_fs_cases raw root base llmE llmB st rel with heq | ⟨X, heq, hX⟩
      · rw [heq] at h'
        exact Or.inl h'
      · rw [heq] at h'
        by_cases hpr : rel = p
        · subst hpr
          rw [lookupA_insertA_self] at h'
          injection h' with h''
          right
          rw [← h'']
          intro heq2
          rw [heq2] at hX
          simp at hX
        · rw [lookupA_insertA_ne _ _ _ _ hpr] at h'
          exact Or.inl h'
    · exact Or.inr hnb

/-- C8, counterexample: when the Gateway call for fabrication *succeeds*
but returns a blank body, stage 4 produces the empty string (the
built-in stub is used only when credentials are missing or the call
raises), so fabrication does not always yield non-empty content. -/
theorem c8_counterexample :
    llm_backfill_file ("app/x.py".data) true (.ok ("  ".data)) = [] := by
  decide

/-- C8, amended: when Gateway credentials are missing, or the call
raises, stage 4 returns a non-empty built-in stub (a single generic
fallback line, not a per-extension one); and whatever the Gateway
helpers return, the audit writes only non-blank content — every file
content in the resulting file system is either the pre-existing one or
has non-empty `strip()`.  But when the fabrication call succeeds with a
blank body, stage 4 yields empty content and the path is recorded as
failed with nothing written, as the counterexample shows. -/
theorem c8_theorem :
    (∀ (path : List Char) (chat : Except (List Char) (List Char)),
        llm_backfill_file path false chat ≠ []) ∧
      (∀ (path e : List Char), llm_backfill_file path true (.error e) ≠ []) ∧
      (∀ (raw root : List Char) (base : List (List Char))
          (llmE llmB : List Char → Option (List Char)) (fs0 : FS)
          (declared : List (List Char)) (p c : List Char),
          lookupA (audit_and_fill raw root base llmE llmB fs0 declared).fs p =
            some c →
          lookupA fs0 p = some c ∨ pyStrip c ≠ []) := by
  refine ⟨?_, ?_, ?_⟩
  · intro path chat h
    simp [llm_backfill_file] at h
  · intro path e h
    simp [llm_backfill_file] at h
  · intro raw root base llmE llmB fs0 declared p c h
    exact auditFold_blank_frame raw root base llmE llmB _ _ p c h

/-- C8, witness: the audit invariant applied at a concrete run whose
backfill wrote `print(1)` for `a.py`. -/
theorem c8_witness :
    lookupA ([] : FS) ("a.py".data) = some ("print(1)".data) ∨
      pyStrip ("print(1)".data) ≠ [] :=
  c8_theorem.2.2 ("x".data) ("p".data) [] (fun _ => none)
    (fun _ => some ("print(1)".data)) [] [("a.py".data)]
    ("a.py".data) ("print(1)".data) (by decide)

/-! ## Claim C3 -/

theorem mapLoop_noFence (root : List Char) (allFiles : List (List Char))
    (line : List Char) (rest : List (List Char)) (ctx : Option FileCtx)
    (block : List (List Char)) (found : List (List Char × List Char))
    (h : isFenceLine line = false) :
    mapContentLoop root allFiles (line :: rest) ctx false block found =
      mapContentLoop root allFiles rest (headingCtx root allFiles line ctx)
        false block found := by
  simp [mapContentLoop, h]

theorem mapLoop_openFence (root : List Char) (allFiles : List (List Char))
    (line : List Char) (rest : List (List Char)) (ctx : Option FileCtx)
    (block : List (List Char)) (found : List (List Char × List Char))
    (h : isFenceLine line = true) :
    mapContentLoop root allFiles (line :: rest) ctx false block found =
      mapContentLoop root allFiles rest ctx true block found := by
  simp [mapContentLoop, h]

theorem mapLoop_bodyLine (root : List Char) (allFiles : List (List Char))
    (line : List Char) (rest : List (List Char)) (ctx : Option FileCtx)
    (block : List (List Char)) (found : List (List Char × List Char))
    (h : isFenceLine line = false) :
    mapContentLoop root allFiles (line :: rest) ctx true block found =
      mapContentLoop root allFiles rest ctx true (block ++ [line]) found := by
  simp [mapContentLoop, h]

theorem mapLoop_close (root : List Char) (allFiles : List (List Char))
    (line : List Char) (rest : List (List Char)) (p hl : List Char)
    (block : List (List Char)) (found : List (List Char × List Char))
    (h : isFenceLine line = true) (hc : containsContinued hl = false) :
    mapContentLoop root allFiles (line :: rest)
        (some ⟨p, hl⟩) true block found =
      mapContentLoop root allFiles rest none false []
        (insertA found p (joinLines block)) := by
  simp [mapContentLoop, h, hc]

theorem mapLoop_run_block (root : List Char) (allFiles : List (List Char))
    (b : List (List Char)) :
    ∀ (rest : List (List Char)) (ctx : Option FileCtx)
      (block : List (List Char)) (found : List (List Char × List Char)),
      (∀ x ∈ b, isFenceLine x = false) →
      mapContentLoop root allFiles (b ++ rest) ctx true block found =
        mapContentLoop root allFiles rest ctx true (block ++ b) found := by
  induction b with
  | nil =>
    intro rest ctx block found _
    simp
  | cons x b ih =>
    intro rest ctx block found hb
    have hx : isFenceLine x = false := hb x (by simp)
    rw [List.cons_append, mapLoop_bodyLine _ _ _ _ _ _ _ hx,
      ih _ _ _ _ (fun y hy => hb y (by simp [hy]))]
    have : (block ++ [x]) ++ b = block ++ x :: b := by simp
    rw [this]

/-- C3, counterexample: for a dump with two headings for `app/x.py`, each
followed by a fence, the deterministic per-path resolution used by the
audit (`_extract_from_headings`) returns the body of the *first*
heading's fence, not the second. -/
theorem c3_counterexample :
    _extract_from_headings
      ("## app/x.py\n```\nONE\n```\n## app/x.py\n```\nTWO\n```\n".data)
      ("proj".data) ("app/x.py".data) = some ("ONE".data) ∧
      ("ONE".data : List Char) ≠ ("TWO".data) := by
  decide

/-- C3, amended: in `ProjectParser._map_content_to_files` the last
occurrence in document order does win — for a dump of a heading for `p`,
a fenced body `b1`, a second heading for `p` and a fenced body `b2`, the
mapping resolves `p` to `b2` — but the audit-side deterministic
resolution `_extract_from_headings` returns the first occurrence's body,
as the counterexample shows. -/
theorem c3_theorem (root p hA hB : List Char) (b1 b2 : List (List Char))
    (allFiles : List (List Char))
    (hfA : isFenceLine hA = false) (hfB : isFenceLine hB = false)
    (hcA : headingCtx root allFiles hA none = some ⟨p, hA⟩)
    (hcB : headingCtx root allFiles hB none = some ⟨p, hB⟩)
    (hb1 : ∀ x ∈ b1, isFenceLine x = false)
    (hb2 : ∀ x ∈ b2, isFenceLine x = false)
    (hnc1 : containsContinued hA = false)
    (hnc2 : containsContinued hB = false) :
    lookupA
      (mapContentLoop root allFiles
        (hA :: ("```".data) ::
          (b1 ++ ("```".data) :: hB :: ("```".data) ::
            (b2 ++ [("```".data)])))
        none false [] []) p = some (joinLines b2) := by
  have hfen : isFenceLine ("```".data) = true := by decide
  rw [mapLoop_noFence _ _ _ _ _ _ _ hfA, hcA,
    mapLoop_openFence _ _ _ _ _ _ _ hfen,
    mapLoop_run_block _ _ b1 _ _ _ _ hb1,
    mapLoop_close _ _ _ _ _ _ _ _ hfen hnc1,
    mapLoop_noFence _ _ _ _ _ _ _ hfB, hcB,
    mapLoop_openFence _ _ _ _ _ _ _ hfen,
    mapLoop_run_block _ _ b2 _ _ _ _ hb2,
    mapLoop_close _ _ _ _ _ _ _ _ hfen hnc2]
  show lookupA
      (insertA (insertA [] p (joinLines ([] ++ b1))) p (joinLines ([] ++ b2)))
      p = some (joinLines b2)
  rw [lookupA_insertA_self]
  simp

/-- C3, witness: the amended theorem applied at the two-heading dump for
`app/x.py` with bodies `ONE` and `TWO`. -/
theorem c3_witness :
    lookupA
      (mapContentLoop ("proj".data) [("app/x.py".data)]
        (("## app/x.py".data) :: ("```".data) ::
          ([("ONE".data)] ++ ("```".data) :: ("## app/x.py".data) ::
            ("```".data) :: ([("TWO".data)] ++ [("```".data)])))
        none false [] []) ("app/x.py".data) =
      some (joinLines [("TWO".data)]) :=
  c3_theorem ("proj".data) ("app/x.py".data) ("## app/x.py".data)
    ("## app/x.py".data) [("ONE".data)] [("TWO".data)] [("app/x.py".data)]
    (by decide) (by decide) (by decide) (by decide)
    (by decide) (by decide) (by decide) (by decide)
example : sanitizeRelpathStr "app/../../x" = some "app/x" := by decide
example : sanitizeRelpathStr "./a//b/" = some "a/b" := by decide
example : sanitizeRelpathStr "a b/c" = none := by decide
example : sanitizeRelpathStr "a/ . /b" = some "a/./b" := by decide
example : sanitizeRelpathStr "a/./b" = some "a/b" := by decide
example : sanitizeRelpathStr ".." = none := by decide

end ProjectBuilder
